import Mathlib

set_option maxRecDepth 8192

namespace NydusCoverage

/-! Shallow embedding of the coverage-improvement pipeline scripts
(`analyze_coverage.py`, `generate_tests.py`, `validate_tests.py`,
`generate_report.py`).  Python strings are modelled as Lean `String`
(with helpers over `List Char`), Python floats arising from coverage
percentages as `ℚ`, and the scripts' process-exit error paths as
`Option`/sentinel results. -/

/-- Boolean prefix test on character lists (helper for the Python substring
operations `in`, `find`, `startswith`, `endswith`). -/
def isPre : List Char → List Char → Bool
  | [], _ => true
  | _ :: _, [] => false
  | a :: as, b :: bs => a == b && isPre as bs

/-- Index of the first occurrence of `needle` in `hay`; models Python
`str.find` (with `none` for the `-1` not-found result). -/
def subIdx (needle : List Char) : List Char → Option Nat
  | [] => if isPre needle [] then some 0 else none
  | c :: cs => if isPre needle (c :: cs) then some 0 else (subIdx needle cs).map (· + 1)

/-- Models the Python substring test `needle in hay`. -/
def strContains (hay needle : String) : Bool := (subIdx needle.toList hay.toList).isSome

/-- Models Python `hay.endswith(sfx)`. -/
def endsWithS (hay sfx : String) : Bool := isPre sfx.toList.reverse hay.toList.reverse

/-- The opening-brace character, written by code point to keep string
literals brace-free. -/
def lbrace : Char := Char.ofNat 123

/-- The closing-brace character. -/
def rbrace : Char := Char.ofNat 125

/-- Models Python `s.count(c)` for a single character. -/
def countChar (c : Char) (s : String) : Nat := s.toList.count c

/-- Models Python `s.split('\n')` on character lists: empty pieces are kept
and the empty text splits to one empty piece. -/
def splitNl : List Char → List (List Char)
  | [] => [[]]
  | c :: cs =>
    if c == '\n' then [] :: splitNl cs
    else
      match splitNl cs with
      | [] => [[c]]
      | l :: ls => (c :: l) :: ls

/-- Line split of a string, modelling Python `original_content.split('\n')`. -/
def splitLines (s : String) : List String := (splitNl s.toList).map String.mk

/-- Models Python `'\n'.join` on character lists. -/
def joinNl : List (List Char) → List Char
  | [] => []
  | [l] => l
  | l :: ls => l ++ '\n' :: joinNl ls

/-- Join of lines with newlines, modelling Python `'\n'.join(lines)`. -/
def joinLines (ls : List String) : String := String.mk (joinNl (ls.map String.toList))

/-! ## Test splice (`generate_tests.py`, `integrate_tests_into_file`) -/

/-- The test-module marker searched for by `integrate_tests_into_file`. -/
def testMarker : String := "#[cfg(test)]"

/-- Whether a line contains the test-module marker (the loop's first branch,
which also skips the line from brace counting via `continue`). -/
def markerLine (l : String) : Bool := strContains l testMarker

/-- Net brace contribution of one line:
`line.count('{') - line.count('}')` as in the Python loop body. -/
def lineDelta (l : String) : Int := (countChar lbrace l : Int) - (countChar rbrace l : Int)

/-- The scan loop of `integrate_tests_into_file` (lines 134-147 of
`generate_tests.py`): walks the lines with index `i`, the `in_test_module`
flag and the running `brace_count`; a line containing the marker sets the
flag and is skipped (`continue`); afterwards each line updates the balance
and the first line with balance zero that contains a closing brace is the
insertion position. -/
def findInsertPos : List String → Nat → Bool → Int → Option Nat
  | [], _, _, _ => none
  | l :: ls, i, inTest, bal =>
    if markerLine l then findInsertPos ls (i + 1) true bal
    else if inTest then
      let b2 := bal + lineDelta l
      if b2 == 0 && decide (0 < countChar rbrace l) then some i
      else findInsertPos ls (i + 1) true b2
    else findInsertPos ls (i + 1) false bal

/-- Models `lines.insert(p, generated); lines.insert(p, "")`:
the blank line and the generated code end up just before index `p`. -/
def insertAt (p : Nat) (xs ls : List String) : List String := ls.take p ++ xs ++ ls.drop p

/-- The synthesized wrapper text prepended when appending at end of file
(braces escaped as code points). -/
def wrapHead : String := "\n\n#[cfg(test)]\nmod tests \x7b\n    use super::*;\n\n"

/-- The synthesized wrapper text appended after the generated code. -/
def wrapTail : String := "\n\x7d\n"

/-- Models `integrate_tests_into_file(original_content, generated_tests)`:
if the marker occurs and the scan finds an insertion position `p > 0`, the
blank line and generated code are inserted before line `p`; on every other
path the generated code is appended at end of file wrapped in a synthesized
test module. -/
def integrate_tests_into_file (original generated : String) : String :=
  if strContains original testMarker then
    match findInsertPos (splitLines original) 0 false 0 with
    | some p =>
      if 0 < p then joinLines (insertAt p ["", generated] (splitLines original))
      else original ++ wrapHead ++ generated ++ wrapTail
    | none => original ++ wrapHead ++ generated ++ wrapTail
  else original ++ wrapHead ++ generated ++ wrapTail

/-! Spec-side description of the insertion point, for comparison with the
scan in the source.  `seek` returns the index of the first list element
satisfying a predicate; `runBal` annotates each line with the cumulative
brace balance, where (as the amended claim states) lines containing the
marker contribute nothing. -/

/-- Index of the first element satisfying `p`. -/
def seek {α : Type} (p : α → Bool) : List α → Option Nat
  | [] => none
  | a :: as => if p a then some 0 else (seek p as).map (· + 1)

/-- Brace contribution of a line with marker lines skipped. -/
def skipDelta (l : String) : Int := if markerLine l then 0 else lineDelta l

/-- Running cumulative balance: each line is paired with the balance after it. -/
def runBal (bal : Int) : List String → List (String × Int)
  | [] => []
  | l :: ls => (l, bal + skipDelta l) :: runBal (bal + skipDelta l) ls

/-- A line qualifies as the insertion line if it is not itself a marker line,
the cumulative balance after it is zero, and it contains a closing brace. -/
def insertHere (p : String × Int) : Bool :=
  !markerLine p.1 && (p.2 == 0 && decide (0 < countChar rbrace p.1))

/-- Spec-level insertion index: the first line after the first marker line at
which the cumulative brace balance (marker lines skipped) is zero and which
contains a closing brace. -/
def specInsertIdx (lines : List String) : Option Nat :=
  match seek markerLine lines with
  | none => none
  | some m => (seek insertHere (runBal 0 (lines.drop (m + 1)))).map (fun j => m + 1 + j)

/-- The scan in test-module mode agrees with the spec-side search over the
balance-annotated lines. -/
lemma findInsertPos_true (ls : List String) : ∀ (i : Nat) (bal : Int),
    findInsertPos ls i true bal = (seek insertHere (runBal bal ls)).map (· + i) := by
  induction ls with
  | nil => intro i bal; rfl
  | cons l ls ih =>
    intro i bal
    by_cases hm : markerLine l = true
    · have hsd : skipDelta l = 0 := by simp [skipDelta, hm]
      have hins : insertHere (l, bal) = false := by simp [insertHere, hm]
      simp only [findInsertPos, hm, if_true, runBal, hsd, add_zero, seek, hins,
        Bool.false_eq_true, if_false]
      rw [ih]
      cases hs : seek insertHere (runBal bal ls) <;> simp [hs] <;> omega
    · have hm' : markerLine l = false := by
        cases h : markerLine l
        · rfl
        · exact absurd h hm
      have hsd : skipDelta l = lineDelta l := by simp [skipDelta, hm']
      have hins : insertHere (l, bal + lineDelta l) =
          ((bal + lineDelta l == 0) && decide (0 < countChar rbrace l)) := by
        simp [insertHere, hm']
      simp only [findInsertPos, hm', Bool.false_eq_true, if_false, if_true, runBal, hsd, seek,
        hins]
      by_cases hc : ((bal + lineDelta l == 0) && decide (0 < countChar rbrace l)) = true
      · simp [hc]
      · have hc' : ((bal + lineDelta l == 0) && decide (0 < countChar rbrace l)) = false := by
          cases h : ((bal + lineDelta l == 0) && decide (0 < countChar rbrace l))
          · rfl
          · exact absurd h hc
        simp only [hc', Bool.false_eq_true, if_false]
        rw [ih]
        cases hs : seek insertHere (runBal (bal + lineDelta l) ls) <;> simp [hs] <;> omega

/-- The full scan (started outside any test module, as in the source with
`in_test_module = False` and `brace_count = 0`) computes exactly the
spec-side insertion index, shifted by the starting line number. -/
lemma findInsertPos_false (ls : List String) : ∀ i : Nat,
    findInsertPos ls i false 0 = (specInsertIdx ls).map (· + i) := by
  induction ls with
  | nil => intro i; rfl
  | cons l ls ih =>
    intro i
    by_cases hm : markerLine l = true
    · simp only [findInsertPos, hm, if_true, specInsertIdx, seek, List.drop_succ_cons,
        List.drop_zero]
      rw [findInsertPos_true]
      cases hs : seek insertHere (runBal 0 ls) <;> simp [hs] <;> omega
    · have hm' : markerLine l = false := by
        cases h : markerLine l
        · rfl
        · exact absurd h hm
      simp only [findInsertPos, hm', Bool.false_eq_true, if_false, specInsertIdx, seek]
      rw [ih]
      cases hsk : seek markerLine ls with
      | none => simp [specInsertIdx, hsk]
      | some m =>
        simp only [specInsertIdx, hsk, Option.map_some, List.drop_succ_cons]
        cases hs : seek insertHere (runBal 0 (ls.drop (m + 1))) <;> simp [hs] <;> omega

/-- A spec-side insertion index is always past the marker line, hence positive. -/
lemma specInsertIdx_pos (ls : List String) (p : Nat)
    (h : specInsertIdx ls = some p) : 0 < p := by
  unfold specInsertIdx at h
  cases hsk : seek markerLine ls with
  | none => simp only [hsk] at h; cases h
  | some m =>
    simp only [hsk] at h
    cases hs : seek insertHere (runBal 0 (ls.drop (m + 1))) with
    | none => rw [hs] at h; simp at h
    | some j =>
      rw [hs] at h
      simp at h
      omega

/-- Claim C4, counterexample.  The original text `"#[cfg(test)]\n{"` contains
the marker and, after it, the cumulative brace balance never returns to zero
on a line with a closing brace (the only further line is a lone opening
brace).  The claim says the generated code is then appended at end of file
without any synthesized test-module wrapper; in fact the output contains the
synthesized `mod tests` wrapper, which occurs in neither the original text
nor the generated code, and the output is not the plain append. -/
theorem c4_counterexample :
    strContains "#[cfg(test)]\n\x7b" "mod tests" = false ∧
    strContains "G" "mod tests" = false ∧
    strContains (integrate_tests_into_file "#[cfg(test)]\n\x7b" "G") "mod tests" = true ∧
    integrate_tests_into_file "#[cfg(test)]\n\x7b" "G" ≠ "#[cfg(test)]\n\x7b" ++ "\n\n" ++ "G" := by
  refine ⟨by decide, by decide, by decide, by decide⟩

/-- Claim C4, amended: for every original text that contains the test-module
marker but in which the scan finds no insertion line (no line after the first
marker line, marker lines skipped from brace counting, at which the
cumulative balance is zero and which contains a closing brace), the splice
appends the generated code at the end of the file wrapped in the synthesized
test-module wrapper, exactly as on the no-marker path. -/
theorem c4_amended (orig gen : String)
    (hm : strContains orig testMarker = true)
    (hn : specInsertIdx (splitLines orig) = none) :
    integrate_tests_into_file orig gen = orig ++ wrapHead ++ gen ++ wrapTail := by
  have hf : findInsertPos (splitLines orig) 0 false 0 = none := by
    rw [findInsertPos_false, hn]; rfl
  simp [integrate_tests_into_file, hm, hf]

/-- Claim C4, witness for the amended theorem at the counterexample input. -/
theorem c4_witness :
    integrate_tests_into_file "#[cfg(test)]\n\x7b" "G" =
      "#[cfg(test)]\n\x7b" ++ wrapHead ++ "G" ++ wrapTail :=
  c4_amended "#[cfg(test)]\n\x7b" "G" (by decide) (by decide)

/-- Claim C5, counterexample.  In `"#[cfg(test)] mod t {\n}\nrest"` the
marker line itself carries the opening brace.  Tracking the balance starting
from the marker line itself (as the claim states) would make the balance
return to zero on the closing-brace line, so the claim predicts the blank
line and generated code inserted before it.  The code instead skips the
marker line's braces (`continue`), never sees a zero balance, and falls
through to the wrapped end-of-file append. -/
theorem c5_counterexample :
    integrate_tests_into_file "#[cfg(test)] mod t \x7b\n\x7d\nrest" "G" ≠
      "#[cfg(test)] mod t \x7b\n\nG\n\x7d\nrest" ∧
    integrate_tests_into_file "#[cfg(test)] mod t \x7b\n\x7d\nrest" "G" =
      "#[cfg(test)] mod t \x7b\n\x7d\nrest" ++ wrapHead ++ "G" ++ wrapTail := by
  refine ⟨by decide, by decide⟩

/-- Claim C5, amended: for every original text containing the test-module
marker, brace balance is tracked starting from the line after the first
marker line, with every line containing the marker skipped from the count;
when the first line at which the cumulative balance returns to zero and
which contains a closing brace exists (index `p`, as computed by the
spec-side `specInsertIdx`), the splice result is exactly the original lines
with a blank line followed by the generated code inserted immediately before
line `p`, all other lines unchanged. -/
theorem c5_amended (orig gen : String) (p : Nat)
    (hm : strContains orig testMarker = true)
    (hp : specInsertIdx (splitLines orig) = some p) :
    integrate_tests_into_file orig gen =
      joinLines (insertAt p ["", gen] (splitLines orig)) := by
  have hf : findInsertPos (splitLines orig) 0 false 0 = some p := by
    rw [findInsertPos_false, hp]; simp
  have hpos : 0 < p := specInsertIdx_pos _ _ hp
  simp [integrate_tests_into_file, hm, hf, hpos]

/-- Claim C5, witness for the amended theorem on a well-formed test module. -/
theorem c5_witness :
    integrate_tests_into_file "fn a() \x7b\x7d\n#[cfg(test)]\nmod tests \x7b\nfn t() \x7b\x7d\n\x7d" "G" =
      joinLines (insertAt 4 ["", "G"]
        (splitLines "fn a() \x7b\x7d\n#[cfg(test)]\nmod tests \x7b\nfn t() \x7b\x7d\n\x7d")) :=
  c5_amended "fn a() \x7b\x7d\n#[cfg(test)]\nmod tests \x7b\nfn t() \x7b\x7d\n\x7d" "G" 4
    (by decide) (by decide)

/-! ## Code extraction (`generate_tests.py`, lines 102-110 of
`call_github_models_api`) -/

/-- The language-tagged opening fence searched for by the extraction code. -/
def fenceRust : List Char := "```rust".toList

/-- A bare fence, searched for as the closing fence. -/
def fenceClose : List Char := "```".toList

/-- Python whitespace characters removed by `str.strip()`. -/
def isWS (c : Char) : Bool :=
  c == ' ' || c == '\t' || c == '\n' || c == '\x0d' || c == '\x0b' || c == '\x0c'

/-- Models Python `s.strip()`: drop whitespace from both ends. -/
def stripChars (cs : List Char) : List Char :=
  ((cs.dropWhile isWS).reverse.dropWhile isWS).reverse

/-- Models the fenced-block extraction in `call_github_models_api`:
if `"```rust"` occurs, `start` is just past it (`find + 7`) and `end` is the
next `"```"` from `start`; only when `end > start` (a closing fence strictly
past the tag) is the slice `[start:end]` taken and stripped, otherwise the
text is returned unchanged. -/
def extractCodeL (cs : List Char) : List Char :=
  match subIdx fenceRust cs with
  | none => cs
  | some i =>
    match subIdx fenceClose (cs.drop (i + 7)) with
    | none => cs
    | some j => if 0 < j then stripChars ((cs.drop (i + 7)).take j) else cs

/-- String-level wrapper of the extraction step. -/
def extractCode (s : String) : String := String.mk (extractCodeL s.toList)

/-- Claim C6, counterexample.  For the response `"```rust\nX\n```"` the exact
substring between the opening fence (past its language tag) and the next
fence is `"\nX\n"`, but the code strips it and returns `"X"`.  Moreover, for
an adjacent closing fence (`"```rust```"`, an empty block) the text is
returned unchanged rather than the empty between-fences substring. -/
theorem c6_counterexample :
    extractCode "```rust\nX\n```" ≠ "\nX\n" ∧
    extractCode "```rust\nX\n```" = "X" ∧
    extractCode "```rust```" = "```rust```" := by
  refine ⟨by decide, by decide, by decide⟩

/-- Claim C6, amended: for every response text containing a `"```rust"` fence
whose next `"```"` fence lies strictly past the language tag, extraction
returns the substring between them stripped of leading and trailing
whitespace; when the closing fence is adjacent (empty block), when no
closing fence follows, and when no tagged fence occurs at all, the response
text is returned completely unchanged. -/
theorem c6_amended (cs : List Char) :
    (subIdx fenceRust cs = none → extractCodeL cs = cs) ∧
    ∀ i, subIdx fenceRust cs = some i →
      ((subIdx fenceClose (cs.drop (i + 7)) = none → extractCodeL cs = cs) ∧
       ∀ j, subIdx fenceClose (cs.drop (i + 7)) = some j →
         extractCodeL cs = if 0 < j then stripChars ((cs.drop (i + 7)).take j) else cs) := by
  refine ⟨fun h => by simp [extractCodeL, h], fun i hi => ⟨fun h => ?_, fun j hj => ?_⟩⟩
  · simp [extractCodeL, hi, h]
  · simp only [extractCodeL, hi, hj]

/-- Claim C6, witness: the amended theorem applied to the fenced response,
evaluating to the stripped block body. -/
theorem c6_witness :
    extractCodeL ("```rust\nX\n```".toList) =
      stripChars ((("```rust\nX\n```".toList).drop (0 + 7)).take 3) := by
  have h := ((c6_amended ("```rust\nX\n```".toList)).2 0 (by decide)).2 3 (by decide)
  simpa using h

/-! ## Coverage analysis (`analyze_coverage.py`) and report recomputation
(`generate_report.py`).  A coverage report is modelled by its
`data[0].files` array: for each file the `filename` and the
`summary.lines.covered` / `summary.lines.count` counters (missing keys
default to zero exactly as the Python `.get(..., 0)` calls do); the
`regions` / `functions` sub-dictionaries are carried through the scripts
untouched and are not modelled. -/

structure FileData where
  filename : String
  covered : Nat
  total : Nat
  deriving DecidableEq

/-- Per-file statistics record built by `extract_file_coverage`. -/
structure FileStats where
  covered : Nat
  total : Nat
  coverage : ℚ
  deriving DecidableEq

/-- The coverage percentage `(covered / total) * 100`. -/
def covPct (f : FileData) : ℚ := ((f.covered : ℚ) / (f.total : ℚ)) * 100

/-- The file filter applied by both `extract_file_coverage`
(`analyze_coverage.py` lines 45-53) and `calculate_overall_coverage`
(`generate_report.py` lines 67-73): keep `.rs` files, drop `target/` and
`.cargo/` paths, drop `/tests/` paths and `_test.rs` files. -/
def keepFile (name : String) : Bool :=
  endsWithS name ".rs" && !strContains name "target/" && !strContains name ".cargo/"
    && !strContains name "/tests/" && !endsWithS name "_test.rs"

/-- Models `extract_file_coverage`: filtered files with `total > 0` become
`(filename, pct, stats)` entries, in the report's original order. -/
def extract_file_coverage : List FileData → List (String × ℚ × FileStats)
  | [] => []
  | f :: fs =>
    if keepFile f.filename then
      if 0 < f.total then
        (f.filename, covPct f, ⟨f.covered, f.total, covPct f⟩) :: extract_file_coverage fs
      else extract_file_coverage fs
    else extract_file_coverage fs

/-- Sort key used by `sorted(file_stats, key=lambda x: x[1])`. -/
def covKey (e : String × ℚ × FileStats) : ℚ := e.2.1

/-- Stable insertion of one entry into an ascending list: the new entry goes
before the first strictly greater or equal-keyed later element, matching the
stable ascending order of Python `sorted`. -/
def insB (x : String × ℚ × FileStats) :
    List (String × ℚ × FileStats) → List (String × ℚ × FileStats)
  | [] => [x]
  | y :: ys => if covKey x ≤ covKey y then x :: y :: ys else y :: insB x ys

/-- Stable ascending sort by coverage percentage, modelling Python
`sorted(file_stats, key=lambda x: x[1])` (Python's sort is stable). -/
def ssort : List (String × ℚ × FileStats) → List (String × ℚ × FileStats)
  | [] => []
  | x :: xs => insB x (ssort xs)

/-- Models `find_least_covered_file`: `none` models the
`sys.exit(1)` taken on an empty statistics list ("No files found with
coverage data"); otherwise the head of the stable ascending sort. -/
def find_least_covered_file (fs : List (String × ℚ × FileStats)) :
    Option (String × FileStats) :=
  match ssort fs with
  | [] => none
  | e :: _ => some (e.1, e.2.2)

/-- Spec-side selector: the first entry of the list attaining the minimum
key, kept for comparison with the sorted-head computation of the source. -/
def firstMin : List (String × ℚ × FileStats) → Option (String × ℚ × FileStats)
  | [] => none
  | x :: xs =>
    match firstMin xs with
    | none => some x
    | some m => if covKey m < covKey x then some m else some x

lemma firstMin_eq_none_iff (l : List (String × ℚ × FileStats)) :
    firstMin l = none ↔ l = [] := by
  cases l with
  | nil => simp [firstMin]
  | cons x xs =>
    simp only [firstMin]
    cases firstMin xs with
    | none => simp
    | some m => by_cases hlt : covKey m < covKey x <;> simp [hlt]

/-- The head of the stable sort is the first minimum of the original list. -/
lemma ssort_head (l : List (String × ℚ × FileStats)) :
    (ssort l).head? = firstMin l := by
  induction l with
  | nil => rfl
  | cons x xs ih =>
    simp only [ssort, firstMin]
    cases hss : ssort xs with
    | nil =>
      rw [hss] at ih
      rw [← ih]
      simp [insB]
    | cons y ys =>
      rw [hss] at ih
      rw [← ih]
      simp only [insB, List.head?_cons]
      by_cases hle : covKey x ≤ covKey y
      · rw [if_pos hle, if_neg (not_lt.mpr hle)]
        rfl
      · rw [if_neg hle, if_pos (not_le.mp hle)]
        rfl

/-- A first minimum splits the list into a strictly-greater prefix, itself,
and a suffix, and is a lower bound of the whole list. -/
lemma firstMin_split (l : List (String × ℚ × FileStats))
    (m : String × ℚ × FileStats) (h : firstMin l = some m) :
    ∃ pre suf, l = pre ++ m :: suf ∧ (∀ x ∈ pre, covKey m < covKey x) ∧
      ∀ x ∈ l, covKey m ≤ covKey x := by
  induction l generalizing m with
  | nil => simp [firstMin] at h
  | cons x xs ih =>
    simp only [firstMin] at h
    cases hfm : firstMin xs with
    | none =>
      simp only [hfm] at h
      have hx : x = m := by injection h
      have hxs : xs = [] := (firstMin_eq_none_iff xs).mp hfm
      subst hx; subst hxs
      exact ⟨[], [], rfl, by simp, by simp⟩
    | some m' =>
      simp only [hfm] at h
      obtain ⟨pre', suf', hsp, hpre, hall⟩ := ih m' hfm
      by_cases hlt : covKey m' < covKey x
      · rw [if_pos hlt] at h
        have hm : m' = m := by injection h
        subst hm
        refine ⟨x :: pre', suf', by simp [hsp], ?_, ?_⟩
        · intro y hy
          rcases List.mem_cons.mp hy with rfl | hy
          · exact hlt
          · exact hpre y hy
        · intro y hy
          rcases List.mem_cons.mp hy with rfl | hy
          · exact le_of_lt hlt
          · exact hall y hy
      · rw [if_neg hlt] at h
        have hx : x = m := by injection h
        subst hx
        refine ⟨[], xs, rfl, by simp, ?_⟩
        intro y hy
        rcases List.mem_cons.mp hy with rfl | hy
        · exact le_refl _
        · exact le_trans (not_lt.mp hlt) (hall y hy)

/-- Claim C7: on the empty filtered sequence the selector fails with the
no-coverage-data error (modelled as `none`); on every non-empty sequence it
returns the entry of minimum coverage percentage, and among ties the first
in original order — every entry strictly before the returned one has
strictly greater percentage, and the returned percentage is a lower bound
of the whole sequence. -/
theorem c7_select_worst (fs : List (String × ℚ × FileStats)) (h : fs ≠ []) :
    find_least_covered_file [] = none ∧
    ∃ m pre suf, find_least_covered_file fs = some (m.1, m.2.2) ∧
      fs = pre ++ m :: suf ∧ (∀ x ∈ pre, m.2.1 < x.2.1) ∧ ∀ x ∈ fs, m.2.1 ≤ x.2.1 := by
  refine ⟨rfl, ?_⟩
  obtain ⟨m, hm⟩ : ∃ m, firstMin fs = some m := by
    cases hh : firstMin fs with
    | none => exact absurd ((firstMin_eq_none_iff fs).mp hh) h
    | some m => exact ⟨m, rfl⟩
  obtain ⟨pre, suf, hsp, hpre, hall⟩ := firstMin_split fs m hm
  have hhead : (ssort fs).head? = some m := (ssort_head fs).trans hm
  refine ⟨m, pre, suf, ?_, hsp, hpre, hall⟩
  cases hss : ssort fs with
  | nil => rw [hss] at hhead; cases hhead
  | cons e rest =>
    rw [hss] at hhead
    have he : e = m := by injection hhead
    subst he
    simp [find_least_covered_file, hss]

/-- Claim C7, witness: a two-entry list with the minimum in second position;
the selector picks it and the split facts hold. -/
theorem c7_witness :
    find_least_covered_file [] = none ∧
    ∃ m pre suf,
      find_least_covered_file
          [("a.rs", (50 : ℚ), ⟨5, 10, 50⟩), ("b.rs", (20 : ℚ), ⟨2, 10, 20⟩)] =
        some (m.1, m.2.2) ∧
      [("a.rs", (50 : ℚ), ⟨5, 10, 50⟩), ("b.rs", (20 : ℚ), ⟨2, 10, 20⟩)] = pre ++ m :: suf ∧
      (∀ x ∈ pre, m.2.1 < x.2.1) ∧
      ∀ x ∈ [("a.rs", (50 : ℚ), (⟨5, 10, 50⟩ : FileStats)),
             ("b.rs", (20 : ℚ), (⟨2, 10, 20⟩ : FileStats))], m.2.1 ≤ x.2.1 :=
  c7_select_worst [("a.rs", (50 : ℚ), ⟨5, 10, 50⟩), ("b.rs", (20 : ℚ), ⟨2, 10, 20⟩)]
    (by decide)

/-- Claim C8: every entry produced by the statistics extraction has a
positive total line count, and its percentage (both the tuple component and
the stats record field) is exactly `covered / total * 100`; in particular
no `total = 0` entry ever appears. -/
theorem c8_zero_total_excluded (files : List FileData) (name : String) (p : ℚ)
    (st : FileStats) (h : (name, p, st) ∈ extract_file_coverage files) :
    0 < st.total ∧ p = ((st.covered : ℚ) / (st.total : ℚ)) * 100 ∧ st.coverage = p := by
  induction files with
  | nil => simp [extract_file_coverage] at h
  | cons f fs ih =>
    by_cases hk : keepFile f.filename = true
    · by_cases ht : 0 < f.total
      · rw [extract_file_coverage, if_pos hk, if_pos ht] at h
        rcases List.mem_cons.mp h with he | hm
        · simp only [Prod.mk.injEq] at he
          obtain ⟨-, rfl, rfl⟩ := he
          exact ⟨ht, rfl, rfl⟩
        · exact ih hm
      · rw [extract_file_coverage, if_pos hk, if_neg ht] at h
        exact ih h
    · rw [extract_file_coverage, if_neg hk] at h
      exact ih h

/-- Claim C8, witness: a three-file report; the `0/0` file and the non-`.rs`
file are dropped, and the kept entry satisfies the percentage formula. -/
theorem c8_witness :
    ("b.rs", (20 : ℚ), (⟨2, 10, 20⟩ : FileStats)) ∈
        extract_file_coverage [⟨"b.rs", 2, 10⟩, ⟨"c.rs", 0, 0⟩, ⟨"d.txt", 3, 3⟩] ∧
    0 < (⟨2, 10, 20⟩ : FileStats).total ∧
    (20 : ℚ) = (((⟨2, 10, 20⟩ : FileStats).covered : ℚ) /
      ((⟨2, 10, 20⟩ : FileStats).total : ℚ)) * 100 ∧
    (⟨2, 10, 20⟩ : FileStats).coverage = (20 : ℚ) := by
  have hpct : covPct (⟨"b.rs", 2, 10⟩ : FileData) = 20 := by norm_num [covPct]
  have heval : extract_file_coverage [⟨"b.rs", 2, 10⟩, ⟨"c.rs", 0, 0⟩, ⟨"d.txt", 3, 3⟩] =
      [("b.rs", (20 : ℚ), ⟨2, 10, 20⟩)] := by
    show [("b.rs", covPct (⟨"b.rs", 2, 10⟩ : FileData),
        (⟨2, 10, covPct (⟨"b.rs", 2, 10⟩ : FileData)⟩ : FileStats))] =
      [("b.rs", (20 : ℚ), (⟨2, 10, 20⟩ : FileStats))]
    rw [hpct]
  have hmem : ("b.rs", (20 : ℚ), (⟨2, 10, 20⟩ : FileStats)) ∈
      extract_file_coverage [⟨"b.rs", 2, 10⟩, ⟨"c.rs", 0, 0⟩, ⟨"d.txt", 3, 3⟩] := by
    rw [heval]
    exact List.mem_singleton.mpr rfl
  exact ⟨hmem,
    c8_zero_total_excluded [⟨"b.rs", 2, 10⟩, ⟨"c.rs", 0, 0⟩, ⟨"d.txt", 3, 3⟩]
      "b.rs" 20 ⟨2, 10, 20⟩ hmem⟩

/-! ## Overall statistics: the Analyzer side (`analyze_coverage.py` main,
lines 140-144, guarded by the empty-set exit at lines 102-104) and the
Report side (`generate_report.py`, `calculate_overall_coverage`). -/

/-- One step of the accumulation loop in `calculate_overall_coverage`:
a file passing the filter with positive total adds one to the file count
and its percentage to the running sum. -/
def overallStep (acc : Nat × ℚ) (f : FileData) : Nat × ℚ :=
  if keepFile f.filename && decide (0 < f.total) then (acc.1 + 1, acc.2 + covPct f) else acc

/-- Models `calculate_overall_coverage` of `generate_report.py`: accumulate
count and percentage sum over the filtered files, then return
`(file_count, total_coverage / file_count)` when the count is positive and
`(0, 0.0)` otherwise. -/
def calculate_overall_coverage (files : List FileData) : Nat × ℚ :=
  let a := files.foldl overallStep (0, 0)
  if 0 < a.1 then (a.1, a.2 / (a.1 : ℚ)) else (0, 0)

/-- Models the Analyzer's overall statistics (`analyze_coverage.py` main):
after the `sys.exit(1)` guard on an empty filtered list (modelled as `none`),
`total_files` is the length of the extracted statistics and
`average_coverage` the unweighted mean of the percentages. -/
def analyzerOverall (files : List FileData) : Option (Nat × ℚ) :=
  let fs := extract_file_coverage files
  if fs = [] then none
  else some (fs.length, ((fs.map (fun e => e.2.1)).sum) / (fs.length : ℚ))

/-- The report-side accumulation loop counts and sums exactly the entries
that the analyzer-side extraction keeps. -/
lemma overall_foldl (files : List FileData) : ∀ (c : Nat) (s : ℚ),
    files.foldl overallStep (c, s) =
      (c + (extract_file_coverage files).length,
       s + ((extract_file_coverage files).map (fun e => e.2.1)).sum) := by
  induction files with
  | nil => intro c s; simp [extract_file_coverage]
  | cons f fs ih =>
    intro c s
    by_cases hk : keepFile f.filename = true
    · by_cases ht : 0 < f.total
      · have hstep : overallStep (c, s) f = (c + 1, s + covPct f) := by
          simp [overallStep, hk, ht]
        rw [List.foldl_cons, hstep, ih]
        rw [extract_file_coverage, if_pos hk, if_pos ht]
        simp only [List.length_cons, List.map_cons, List.sum_cons, Prod.mk.injEq]
        exact ⟨by omega, by ring⟩
      · have hstep : overallStep (c, s) f = (c, s) := by
          simp [overallStep, ht]
        rw [List.foldl_cons, hstep, ih, extract_file_coverage, if_pos hk, if_neg ht]
    · have hk' : keepFile f.filename = false := by
        cases h : keepFile f.filename
        · rfl
        · exact absurd h hk
      have hstep : overallStep (c, s) f = (c, s) := by
        simp [overallStep, hk']
      rw [List.foldl_cons, hstep, ih, extract_file_coverage, if_neg hk]

/-- Claim C9: whenever the filtered entry set is non-empty, the Report
stage's recomputation (`calculate_overall_coverage`) yields exactly the
file count and unweighted average that the Analyzer computes over its own
extraction of the same report. -/
theorem c9_filter_equivalence (files : List FileData)
    (h : extract_file_coverage files ≠ []) :
    analyzerOverall files = some (calculate_overall_coverage files) := by
  have hfold := overall_foldl files 0 0
  have hlen : 0 < (extract_file_coverage files).length := List.length_pos.mpr h
  simp only [analyzerOverall, calculate_overall_coverage, hfold, zero_add]
  rw [if_neg h, if_pos hlen]

/-- Claim C9, witness: a concrete two-file report on which both stages
compute `(2, 60)`. -/
theorem c9_witness :
    extract_file_coverage [⟨"a.rs", 10, 10⟩, ⟨"b.rs", 2, 10⟩] ≠ [] ∧
    analyzerOverall [⟨"a.rs", 10, 10⟩, ⟨"b.rs", 2, 10⟩] =
      some (calculate_overall_coverage [⟨"a.rs", 10, 10⟩, ⟨"b.rs", 2, 10⟩]) :=
  ⟨by decide, c9_filter_equivalence [⟨"a.rs", 10, 10⟩, ⟨"b.rs", 2, 10⟩] (by decide)⟩

/-- Claim C10: on a report whose filtered entry set is empty the Report
stage's recomputation totally returns `(0, 0.0)` with no division, while the
Analyzer aborts with its no-coverage-data error (modelled as `none`). -/
theorem c10_empty_total (files : List FileData)
    (h : extract_file_coverage files = []) :
    calculate_overall_coverage files = (0, 0) ∧ analyzerOverall files = none := by
  have hfold := overall_foldl files 0 0
  rw [h] at hfold
  constructor
  · simp only [calculate_overall_coverage, hfold]
    norm_num
  · simp [analyzerOverall, h]

/-- Claim C10, witness: a report containing only a `0/0` file and a
non-source file filters to the empty set; the Report stage returns
`(0, 0.0)` and the Analyzer errors out. -/
theorem c10_witness :
    extract_file_coverage [⟨"c.rs", 0, 0⟩, ⟨"d.txt", 3, 3⟩] = [] ∧
    calculate_overall_coverage [⟨"c.rs", 0, 0⟩, ⟨"d.txt", 3, 3⟩] = (0, 0) ∧
    analyzerOverall [⟨"c.rs", 0, 0⟩, ⟨"d.txt", 3, 3⟩] = none :=
  ⟨by decide, c10_empty_total [⟨"c.rs", 0, 0⟩, ⟨"d.txt", 3, 3⟩] (by decide)⟩

/-! ## Validator (`validate_tests.py`).  A single call of `validate_tests`
stages the candidate over the working file, runs the compile and test
oracles, and in its `finally` block restores the backup exactly when the
function attribute `validate_tests.success` — whose value during the call is
the one left by the PREVIOUS assignment in the driver — is false.  The
driver (`main`) loops `attempt = 1..3`, assigns the attribute from each
call's return value, and on success copies the candidate over the file again
(`apply_tests`) and records metadata. -/

/-- Exit path of one validation attempt: which oracle outcome the call takes.
`pass` is the only path on which the call returns `True`. -/
inductive Outcome where
  | checkFail
  | testFail
  | timeout
  | exception
  | pass
  deriving DecidableEq

/-- Return value of the call on each exit path (lines 46, 65, 68, 72, 75). -/
def retOf : Outcome → Bool
  | .pass => true
  | _ => false

/-- Observable result of one `validate_tests` call: the successive contents
written to the working file during the call, the content at call completion,
and the returned boolean. -/
structure CallResult where
  trace : List String
  file : String
  ret : Bool
  deriving DecidableEq

/-- Models one call `validate_tests(test_file_path, original_file_path)`
with working-file content `file`, candidate content `cand`, and the value
`flag` held by `validate_tests.success` during the call: the candidate is
staged (copied over the file), the oracles run with outcome `o`, and the
`finally` block restores the pre-attempt content exactly when `flag` is
false; the backup itself is created at entry and deleted at exit. -/
def validate_tests (file cand : String) (flag : Bool) (o : Outcome) : CallResult :=
  { trace := if flag then [cand] else [cand, file]
    file := if flag then cand else file
    ret := retOf o }

/-- Final state of the driver: working-file content, the recorded metadata
fields `validation_success` and `validation_attempts`, and the process exit
code. -/
structure DriverResult where
  file : String
  success : Bool
  attempts : Nat
  exitCode : Nat
  deriving DecidableEq

/-- The driver loop of `main` (lines 115-157): fuel counts the remaining
iterations of `range(1, 4)` and `k` is the current attempt number; each
iteration calls `validate_tests` with the flag value left by the previous
assignment, assigns the flag from the returned value, and on success applies
the candidate (`apply_tests`), records `{True, k}` and exits 0; exhaustion
records `{False, 3}` and exits 1. -/
def runAttempts (cand : String) (oc : Nat → Outcome) :
    Nat → Nat → String → Bool → DriverResult
  | 0, _, file, _ => { file := file, success := false, attempts := 3, exitCode := 1 }
  | fuel + 1, k, file, flag =>
    let c := validate_tests file cand flag (oc k)
    if c.ret then { file := cand, success := true, attempts := k, exitCode := 0 }
    else runAttempts cand oc fuel (k + 1) c.file c.ret

/-- Models the whole of `main` after metadata load: three attempts starting
from the working file holding the original content and the module-level
initialisation `validate_tests.success = False` (line 88). -/
def validatorMain (orig cand : String) (oc : Nat → Outcome) : DriverResult :=
  runAttempts cand oc 3 1 orig false

lemma retOf_eq_false {o : Outcome} (h : o ≠ Outcome.pass) : retOf o = false := by
  cases o
  · rfl
  · rfl
  · rfl
  · rfl
  · exact absurd rfl h

/-- Claim C1: whatever exit path a single `validate_tests` call takes and
whatever value the stale `validate_tests.success` flag holds during it, at
call completion the working file is byte-identical to either the pre-attempt
original content or the staged candidate content, and indeed every content
the file holds during the call is one of those two — never any third
state. -/
theorem c1_two_state (file cand : String) (flag : Bool) (o : Outcome) :
    ((validate_tests file cand flag o).file = file ∨
     (validate_tests file cand flag o).file = cand) ∧
    ∀ s ∈ (validate_tests file cand flag o).trace, s = file ∨ s = cand := by
  cases flag
  · refine ⟨Or.inl rfl, ?_⟩
    intro s hs
    rcases List.mem_cons.mp hs with rfl | hs
    · exact Or.inr rfl
    · rcases List.mem_singleton.mp hs with rfl
      exact Or.inl rfl
  · refine ⟨Or.inr rfl, ?_⟩
    intro s hs
    rcases List.mem_singleton.mp hs with rfl
    exact Or.inr rfl

/-- Claim C1, witness: a failing attempt with the flag in its initial false
state leaves the original in place, and each staged content is one of the
two permitted states. -/
theorem c1_witness :
    ((validate_tests "O" "C" false Outcome.checkFail).file = "O" ∨
     (validate_tests "O" "C" false Outcome.checkFail).file = "C") ∧
    ("C" = "O" ∨ "C" = "C") :=
  ⟨(c1_two_state "O" "C" false Outcome.checkFail).1,
   (c1_two_state "O" "C" false Outcome.checkFail).2 "C" (by decide)⟩

/-- Claim C2: when every one of the driver's three attempts fails, the
driver records `validation_success = false` and `validation_attempts = 3`,
the working file holds the original content byte-identically, and the
process exits with the non-zero code 1. -/
theorem c2_exhaustion (orig cand : String) (oc : Nat → Outcome)
    (hf : ∀ i, 1 ≤ i → i ≤ 3 → oc i ≠ Outcome.pass) :
    validatorMain orig cand oc =
      { file := orig, success := false, attempts := 3, exitCode := 1 } ∧
    (validatorMain orig cand oc).exitCode ≠ 0 := by
  have h1 : retOf (oc 1) = false := retOf_eq_false (hf 1 (by omega) (by omega))
  have h2 : retOf (oc 2) = false := retOf_eq_false (hf 2 (by omega) (by omega))
  have h3 : retOf (oc 3) = false := retOf_eq_false (hf 3 (by omega) (by omega))
  have hmain : validatorMain orig cand oc =
      { file := orig, success := false, attempts := 3, exitCode := 1 } := by
    simp [validatorMain, runAttempts, validate_tests, h1, h2, h3]
  refine ⟨hmain, ?_⟩
  rw [hmain]
  simp

/-- Claim C2, witness: the compile check failing on all three attempts. -/
theorem c2_witness :
    validatorMain "O" "C" (fun _ => Outcome.checkFail) =
      { file := "O", success := false, attempts := 3, exitCode := 1 } ∧
    (validatorMain "O" "C" (fun _ => Outcome.checkFail)).exitCode ≠ 0 :=
  c2_exhaustion "O" "C" (fun _ => Outcome.checkFail) (fun _ _ _ h => Outcome.noConfusion h)

/-- The driver's recorded attempt count never exceeds 3 on any outcome
sequence. -/
lemma attempts_le_three (orig cand : String) (oc : Nat → Outcome) :
    (validatorMain orig cand oc).attempts ≤ 3 := by
  cases h1 : retOf (oc 1) <;> cases h2 : retOf (oc 2) <;> cases h3 : retOf (oc 3) <;>
    simp [validatorMain, runAttempts, validate_tests, h1, h2, h3]

/-- Claim C3: the driver performs at most 3 attempts (the recorded
`validation_attempts` never exceeds 3 on any outcome sequence), and if the
first `N` with a passing attempt satisfies `1 ≤ N ≤ 3` it stops there,
leaves the working file equal to the candidate content, and records
`validation_success = true` with `validation_attempts = N`, exiting 0. -/
theorem c3_retry_bound (orig cand : String) (oc : Nat → Outcome) (N : Nat)
    (hN1 : 1 ≤ N) (hN3 : N ≤ 3) (hp : oc N = Outcome.pass)
    (hf : ∀ i, 1 ≤ i → i < N → oc i ≠ Outcome.pass) :
    validatorMain orig cand oc =
      { file := cand, success := true, attempts := N, exitCode := 0 } ∧
    ∀ oc2 : Nat → Outcome, (validatorMain orig cand oc2).attempts ≤ 3 := by
  refine ⟨?_, fun oc2 => attempts_le_three orig cand oc2⟩
  interval_cases N
  · have h1 : retOf (oc 1) = true := by rw [hp]; rfl
    simp [validatorMain, runAttempts, validate_tests, h1]
  · have h1 : retOf (oc 1) = false := retOf_eq_false (hf 1 (by omega) (by omega))
    have h2 : retOf (oc 2) = true := by rw [hp]; rfl
    simp [validatorMain, runAttempts, validate_tests, h1, h2]
  · have h1 : retOf (oc 1) = false := retOf_eq_false (hf 1 (by omega) (by omega))
    have h2 : retOf (oc 2) = false := retOf_eq_false (hf 2 (by omega) (by omega))
    have h3 : retOf (oc 3) = true := by rw [hp]; rfl
    simp [validatorMain, runAttempts, validate_tests, h1, h2, h3]

/-- Claim C3, witness: Scenario D — failures on attempts 1 and 2, success on
attempt 3, yielding metadata `{true, 3}` and the candidate in place. -/
theorem c3_witness :
    validatorMain "O" "C" (fun i => if i = 3 then Outcome.pass else Outcome.checkFail) =
      { file := "C", success := true, attempts := 3, exitCode := 0 } ∧
    ∀ oc2 : Nat → Outcome, (validatorMain "O" "C" oc2).attempts ≤ 3 :=
  c3_retry_bound "O" "C" (fun i => if i = 3 then Outcome.pass else Outcome.checkFail) 3
    (by omega) (by omega) (by decide)
    (fun i h1 h2 => by interval_cases i <;> decide)

end NydusCoverage
